import Mathlib

/-!
Verification of the `repo_exporter.py` pipeline (Selector + Workbook Builder).

The Python source is shallowly embedded: the filesystem is an inductive
directory tree of `FileRec` records, `os.walk` with directory pruning becomes
a structurally recursive walk, and the workbook is a list of sheets holding
`(row, column, value)` cells recorded in write order.  Python string
operations (`str.lower`, `Path.suffix`, `str.splitlines`, `textwrap.dedent`,
`str.strip`, `str.rstrip`, `str.count`) are modelled for the relevant
character ranges (ASCII case mapping, tab/space indentation, the usual line
boundaries).
-/

namespace RepoExporter

/-- Python `str.lower` restricted to the ASCII case mapping. -/
def charLower (c : Char) : Char :=
  if 'A' ≤ c ∧ c ≤ 'Z' then Char.ofNat (c.toNat + 32) else c

/-- Python `str.upper` restricted to the ASCII case mapping. -/
def charUpper (c : Char) : Char :=
  if 'a' ≤ c ∧ c ≤ 'z' then Char.ofNat (c.toNat - 32) else c

def pyLower (s : String) : String := String.mk (s.toList.map charLower)

def pyUpper (s : String) : String := String.mk (s.toList.map charUpper)

/-- Python `ext.lstrip(".")`: drop every leading dot. -/
def lstripDots (s : String) : String := String.mk (s.toList.dropWhile (· = '.'))

/-- Python `src.strip("\n")`: drop leading and trailing newline characters. -/
def stripNl (s : String) : String :=
  let front := s.toList.dropWhile (· = '\n')
  String.mk ((front.reverse.dropWhile (· = '\n')).reverse)

/-- Python `str.rstrip()` over the ASCII whitespace characters. -/
def pyRstrip (s : String) : String :=
  let ws : List Char := [' ', '\t', '\n', '\x0d', '\x0b', '\x0c']
  String.mk ((s.toList.reverse.dropWhile (ws.contains ·)).reverse)

/-- Python `src.count("\n")`. -/
def countNl (s : String) : Nat := s.toList.count '\n'

/-- Line-boundary characters recognised by Python `str.splitlines`. -/
def isLineBound (c : Char) : Bool :=
  c ∈ ['\n', '\x0d', '\x0b', '\x0c',
       Char.ofNat 0x1c, Char.ofNat 0x1d, Char.ofNat 0x1e,
       Char.ofNat 0x85, Char.ofNat 0x2028, Char.ofNat 0x2029]

def splitlinesAux : List Char → List Char → List String
  | [], acc => if acc.isEmpty then [] else [String.mk acc.reverse]
  | '\x0d' :: '\n' :: rest, acc => String.mk acc.reverse :: splitlinesAux rest []
  | c :: rest, acc =>
      if isLineBound c then String.mk acc.reverse :: splitlinesAux rest []
      else splitlinesAux rest (c :: acc)

/-- Python `str.splitlines()`: no trailing empty element, `""` gives `[]`. -/
def pySplitlines (s : String) : List String := splitlinesAux s.toList []

/-- Python `pathlib.Path.suffix`: text from the last dot of the name,
provided that dot is neither the first nor the last character. -/
def pySuffix (name : String) : String :=
  let cs := name.toList
  if cs.contains '.' then
    let i := cs.length - 1 - cs.reverse.indexOf '.'
    if 0 < i ∧ i < cs.length - 1 then String.mk (cs.drop i) else ""
  else ""

/-- Python `text.split("\n")`. -/
def splitOnNlAux : List Char → List Char → List String
  | [], acc => [String.mk acc.reverse]
  | '\n' :: rest, acc => String.mk acc.reverse :: splitOnNlAux rest []
  | c :: rest, acc => splitOnNlAux rest (c :: acc)

def splitOnNl (s : String) : List String := splitOnNlAux s.toList []

/-- `textwrap.dedent`: whitespace-only lines are normalised to empty, and the
longest common leading run of spaces/tabs of the remaining lines is removed. -/
def isWsOnlyLine (l : String) : Bool :=
  !l.toList.isEmpty && l.toList.all (fun c => c = ' ' ∨ c = '\t')

def leadingWs (l : String) : List Char :=
  l.toList.takeWhile (fun c => c = ' ' ∨ c = '\t')

def hasContentChar (l : String) : Bool :=
  l.toList.any (fun c => ¬(c = ' ' ∨ c = '\t'))

def commonPrefix : List Char → List Char → List Char
  | a :: as, b :: bs => if a = b then a :: commonPrefix as bs else []
  | _, _ => []

def dedent (text : String) : String :=
  let lines := (splitOnNl text).map (fun l => if isWsOnlyLine l then "" else l)
  let indents := lines.filterMap
    (fun l => if hasContentChar l then some (leadingWs l) else none)
  let margin : List Char :=
    match indents with
    | [] => []
    | i :: rest => rest.foldl commonPrefix i
  let result :=
    if margin.isEmpty then lines
    else lines.map (fun l =>
      if l.toList.take margin.length = margin
      then String.mk (l.toList.drop margin.length) else l)
  String.intercalate "\n" result

/-! ### Configuration (`EXCLUDED_DIRS`, `INCLUDE_EXTS`, `lang_map`) -/

def EXCLUDED_DIRS : List String :=
  ["venv", ".venv", ".git", "__pycache__", ".idea", ".vscode", "node_modules"]

def INCLUDE_EXTS : List String :=
  [".py", ".md", ".txt", ".json", ".yaml", ".yml", ".toml", ".ini", ".cfg",
   ".csv", ".tsv", ".js", ".ts", ".html", ".css", ".sh", ".bat", ".ps1", ".sql"]

def lang_map : List (String × String) :=
  [(".py", "Python"), (".js", "JavaScript"), (".ts", "TypeScript"),
   (".md", "Markdown"), (".json", "JSON"), (".yaml", "YAML"), (".yml", "YAML"),
   (".html", "HTML"), (".css", "CSS"), (".sh", "Shell"), (".bat", "Batch"),
   (".ps1", "PowerShell"), (".sql", "SQL"), (".csv", "CSV"), (".tsv", "TSV"),
   (".toml", "TOML"), (".ini", "INI"), (".cfg", "Config"), (".txt", "Text")]

/-! ### Filesystem model -/

/-- One regular file.  `bytes`/`readable` describe the raw read done by the
binary sniff; `content`/`readOk`/`errMsg` describe the later
`read_text(encoding="utf-8", errors="replace")` done by the builder
(`errMsg` is the exception text when that read fails); `size` and `mtime`
are the `stat` results. -/
structure FileRec where
  name : String
  bytes : List Nat
  readable : Bool
  content : String
  readOk : Bool
  errMsg : String
  size : Nat
  mtime : String
deriving DecidableEq, Repr

/-- A directory: named subdirectories plus regular files, in listing order. -/
inductive Dir where
  | mk : List (String × Dir) → List FileRec → Dir

def Dir.subdirs : Dir → List (String × Dir)
  | .mk s _ => s

def Dir.files : Dir → List FileRec
  | .mk _ f => f

/-- The environment's `mimetypes.guess_type` table, as a function from the
file name to the guessed MIME type. -/
abbrev MimeGuess := String → Option String

/-! ### Selector (`is_binary`, `iter_files`) -/

/-- The NUL sniff: read up to 512 bytes and look for a NUL byte; a failed
read counts as binary. -/
def nulSniff (f : FileRec) : Bool :=
  if f.readable then (f.bytes.take 512).contains 0 else true

/-- `is_binary`: MIME guess first (a non-empty guess that is not `text/...`
is binary without reading), otherwise the NUL sniff. -/
def is_binary (mg : MimeGuess) (f : FileRec) : Bool :=
  match mg f.name with
  | some mime => if mime ≠ "" ∧ ¬ mime.startsWith "text/" then true else nulSniff f
  | none => nulSniff f

/-- The extension filter of `iter_files`: `p.suffix.lower() in INCLUDE_EXTS`. -/
def extIncluded (name : String) : Bool :=
  INCLUDE_EXTS.contains (pyLower (pySuffix name))

/-- The whole per-file test of `iter_files`. -/
def keepFile (mg : MimeGuess) (f : FileRec) : Bool :=
  extIncluded f.name && !is_binary mg f

mutual

/-- `os.walk` over one directory: yield the kept files of the current
directory (in listing order), then recurse into the non-excluded
subdirectories.  Alongside each yielded relative path we carry the file
record itself, standing for the file the path denotes. -/
def walkDir (mg : MimeGuess) (pre : List String) : Dir → List (List String × FileRec)
  | .mk subs fs =>
      fs.filterMap (fun f => if keepFile mg f then some (pre ++ [f.name], f) else none)
        ++ walkSubs mg pre subs

/-- Recursion into subdirectories; a name in `EXCLUDED_DIRS` is pruned
before descending (`dirnames[:] = [d for d in dirnames if d not in EXCLUDED_DIRS]`). -/
def walkSubs (mg : MimeGuess) (pre : List String) :
    List (String × Dir) → List (List String × FileRec)
  | [] => []
  | (n, d) :: rest =>
      (if EXCLUDED_DIRS.contains n then [] else walkDir mg (pre ++ [n]) d)
        ++ walkSubs mg pre rest

end

/-- The Selector: relative paths of the kept files, in walk order. -/
def iter_files (mg : MimeGuess) (root : Dir) : List (List String) :=
  (walkDir mg [] root).map Prod.fst

/-! ### Workbook model -/

/-- A cell value: text or number. -/
inductive Val where
  | s : String → Val
  | n : Nat → Val
deriving DecidableEq, Repr

/-- A sheet: its title and its cells as `(row, column, value)`, recorded in
write order. -/
structure Sheet where
  name : String
  cells : List (Nat × Nat × Val)
deriving DecidableEq, Repr

/-- `openpyxl` `max_row`: the largest written row index (1 for an empty
sheet). -/
def maxRowOf (cells : List (Nat × Nat × Val)) : Nat :=
  cells.foldl (fun m c => max m c.1) 1

/-! ### Workbook Builder (`build_excel`) -/

/-- `top_level`: the first path segment, or `"_root"` for a top-level file. -/
def top_level (p : List String) : String :=
  match p with
  | a :: _ :: _ => a
  | _ => "_root"

/-- `sheet_safe`: replace the path separator and `":"` with `"_"`, truncate
to 31 characters, and replace non-ASCII characters with `"?"`
(`encode("ascii", "replace")`). -/
def sheet_safe (name : String) : String :=
  String.mk
    (((name.toList.map (fun c => if c = '/' ∨ c = ':' then '_' else c)).take 31).map
      (fun c => if c.toNat ≤ 127 then c else '?'))

/-- `str(p)` for a relative path (POSIX separator). -/
def pathStr (p : List String) : String := String.intercalate "/" p

/-- `p.suffix.lower()` for a relative path. -/
def pathExt (p : List String) : String := pyLower (pySuffix (p.getLastD ""))

/-- The content string the builder works with: `read_text` (plus the
injectable `fmt_py` on `.py` files), or the error placeholder when the read
raises. -/
def srcOf (fmtPy : String → String) (p : List String) (f : FileRec) : String :=
  if f.readOk then
    (if pathExt p = ".py" then fmtPy f.content else f.content)
  else "<<Error reading file: " ++ f.errMsg ++ ">>"

/-- The per-file line count recorded by the builder: `src.count("\n") + 1`. -/
def fileLoc (fmtPy : String → String) (p : List String) (f : FileRec) : Nat :=
  countNl (srcOf fmtPy p f) + 1

/-- `lang_map.get(ext, ext.lstrip(".").upper())`. -/
def langOf (ext : String) : String :=
  match lang_map.find? (fun kv => kv.1 == ext) with
  | some kv => kv.2
  | none => pyUpper (lstripDots ext)

/-- `by_lang[lang] += 1` on an insertion-ordered counter. -/
def counterAdd (c : List (String × Nat)) (k : String) : List (String × Nat) :=
  match c with
  | [] => [(k, 1)]
  | (k', n) :: rest =>
      if k' == k then (k', n + 1) :: rest else (k', n) :: counterAdd rest k

/-- `Counter.most_common()`: stable sort by descending count. -/
def insertDesc (x : String × Nat) : List (String × Nat) → List (String × Nat)
  | [] => [x]
  | y :: ys => if x.2 ≥ y.2 then x :: y :: ys else y :: insertDesc x ys

def most_common (c : List (String × Nat)) : List (String × Nat) :=
  c.foldr insertDesc []

/-- The lines written on a content sheet:
`textwrap.dedent(src.strip("\n")).splitlines()`. -/
def trimmedLines (src : String) : List String := pySplitlines (dedent (stripNl src))

/-- The numbered code rows: for the i-th line (1-based), column 1 holds the
index and column 2 the line text. -/
def numberCells (r0 : Nat) (lines : List String) : List (Nat × Nat × Val) :=
  lines.enum.flatMap (fun iv => [(r0 + iv.1, 1, Val.n (iv.1 + 1)), (r0 + iv.1, 2, Val.s iv.2)])

/-- One file section on a content sheet, starting at row `r`: the header row
holding the relative path, the opening fence naming the extension, the
numbered lines, and the closing fence. -/
def fileSection (r : Nat) (pStr ext src : String) : List (Nat × Nat × Val) :=
  let lines := trimmedLines src
  (r, 1, Val.s pStr)
    :: (r + 1, 2, Val.s ("```" ++ lstripDots ext))
    :: numberCells (r + 2) lines
    ++ [(r + 2 + lines.length, 2, Val.s "```")]

/-- One content sheet while the build loop runs: the `dir_sheets` dictionary
key (the raw `top_level` title) and the cells written so far. -/
structure DirSheetRec where
  title : String
  cells : List (Nat × Nat × Val)
deriving DecidableEq, Repr

/-- Append cells to the first sheet with the given title. -/
def appendToSheet : List DirSheetRec → String → List (Nat × Nat × Val) → List DirSheetRec
  | [], _, _ => []
  | s :: rest, t, cs =>
      if s.title == t then { s with cells := s.cells ++ cs } :: rest
      else s :: appendToSheet rest t cs

/-- The mutable state of the build loop: summary rows, `total_loc`,
`by_lang`, and the content sheets in creation order. -/
structure BuildState where
  rows : List (List Val)
  total_loc : Nat
  by_lang : List (String × Nat)
  sheets : List DirSheetRec
deriving DecidableEq, Repr

def initState : BuildState := ⟨[], 0, [], []⟩

/-- One iteration of the `for p in files` loop. -/
def processFile (fmtPy : String → String) (st : BuildState)
    (pf : List String × FileRec) : BuildState :=
  let p := pf.1
  let f := pf.2
  let ext := pathExt p
  let lang := langOf ext
  let src := srcOf fmtPy p f
  let loc := fileLoc fmtPy p f
  let title := top_level p
  let pStr := pathStr p
  let sheets :=
    match st.sheets.find? (fun s => s.title == title) with
    | none => st.sheets ++ [⟨title, fileSection 1 pStr ext src⟩]
    | some s => appendToSheet st.sheets title (fileSection (maxRowOf s.cells + 2) pStr ext src)
  { rows := st.rows ++
      [[Val.s pStr, Val.s lang, Val.n f.size, Val.s f.mtime, Val.s (sheet_safe title)]],
    total_loc := st.total_loc + loc,
    by_lang := counterAdd st.by_lang lang,
    sheets := sheets }

/-- A `ws.append(values)` row: values across columns 1, 2, ... of row `r`. -/
def rowCells (r : Nat) (vs : List Val) : List (Nat × Nat × Val) :=
  vs.enum.map (fun iv => (r, iv.1 + 1, iv.2))

/-- The Summary sheet: the bold header row plus one row per file. -/
def summarySheet (rows : List (List Val)) : Sheet :=
  ⟨"Summary",
    rowCells 1 [Val.s "Relative Path", Val.s "Language", Val.s "Size (bytes)",
                Val.s "Last Modified", Val.s "Sheet"]
      ++ rows.enum.flatMap (fun iv => rowCells (iv.1 + 2) iv.2)⟩

/-- The Stats sheet: file count, total lines, timestamp, and the language
breakdown from row 6 on. -/
def statsSheet (nFiles totalLoc : Nat) (byLang : List (String × Nat)) (now : String) : Sheet :=
  ⟨"Stats",
    [(1, 1, Val.s "Metric"), (1, 2, Val.s "Value"),
     (2, 1, Val.s "Total text files"), (2, 2, Val.n nFiles),
     (3, 1, Val.s "Total lines of code"), (3, 2, Val.n totalLoc),
     (4, 1, Val.s "Last modified"), (4, 2, Val.s now),
     (5, 1, Val.s "Files by language")]
      ++ (most_common byLang).enum.flatMap
          (fun iv => [(6 + iv.1, 1, Val.s iv.2.1), (6 + iv.1, 2, Val.n iv.2.2)])⟩

/-- The static instructional text placed in cell A4 of the README sheet. -/
def readmeBody : String :=
  "1. Place repo_exporter.py in the project root\n"
    ++ "2. Run:  python repo_exporter.py   (optionally -o output.xlsx)\n"
    ++ "3. See the Summary sheet for quick navigation (header row is frozen and filterable).\n"
    ++ "4. Each top-level folder has its own sheet with file sections; collapse rows in Excel’s"
    ++ " outline to hide or show individual files.\n"
    ++ "5. If you have the `black` package installed, Python files are auto-formatted."

/-- The fixed list of dependency manifests embedded into the README sheet. -/
def manifestNames : List String :=
  ["requirements.txt", "pyproject.toml", "environment.yml"]

/-- `(root / req_name).exists()`: look the name up among the root files. -/
def findManifest (root : Dir) (name : String) : Option FileRec :=
  root.files.find? (fun f => f.name == name)

/-- The cells of one embedded manifest: the `📃 name:` header at `startRow`,
then one right-stripped line per manifest line. -/
def manifestBlock (startRow : Nat) (name content : String) : List (Nat × Nat × Val) :=
  (startRow, 1, Val.s ("📃 " ++ name ++ ":"))
    :: (pySplitlines content).enum.map
        (fun iv => (startRow + 1 + iv.1, 1, Val.s (pyRstrip iv.2)))

/-- Process one manifest candidate: append its block two rows below the
current `max_row` when it exists, otherwise leave the sheet unchanged. -/
def manifestStep (root : Dir) (cells : List (Nat × Nat × Val)) (name : String) :
    List (Nat × Nat × Val) :=
  match findManifest root name with
  | none => cells
  | some f => cells ++ manifestBlock (maxRowOf cells + 2) name f.content

/-- The static cells of the README sheet (rows 1, 3 and 4). -/
def readmeBase : List (Nat × Nat × Val) :=
  [(1, 1, Val.s "📦 Project Source Export"),
   (3, 1, Val.s "⚙️ How this workbook was generated:"),
   (4, 1, Val.s readmeBody)]

/-- The README sheet: static text plus the dependency manifests present at
the root. -/
def readmeSheet (root : Dir) : Sheet :=
  ⟨"README", manifestNames.foldl (manifestStep root) readmeBase⟩

/-- The outcome of `build_excel`: either the "no matching files" notice with
no workbook written, or the saved workbook together with the success
message. -/
inductive BuildResult where
  | noFiles : String → BuildResult
  | saved : List Sheet → String → BuildResult
deriving DecidableEq, Repr

/-- `build_excel`: run the Selector; an empty selection short-circuits with
the notice; otherwise loop over the files and assemble the workbook with its
sheets in creation order (Summary, then the content sheets as first
encountered, then Stats, then README). -/
def build_excel (mg : MimeGuess) (fmtPy : String → String) (now : String)
    (root : Dir) (out_file : String) : BuildResult :=
  let files := walkDir mg [] root
  match files with
  | [] => .noFiles "❌ No matching files found."
  | _ =>
      let st := files.foldl (processFile fmtPy) initState
      .saved
        (summarySheet st.rows
          :: st.sheets.map (fun d => Sheet.mk (sheet_safe d.title) d.cells)
          ++ [statsSheet files.length st.total_loc st.by_lang now, readmeSheet root])
        ("✅ Export complete → " ++ out_file)

/-- The sheet names of a build outcome, in workbook order. -/
def sheetNames : BuildResult → List String
  | .noFiles _ => []
  | .saved wb _ => wb.map (fun s => s.name)

/-- First-encountered order of a list of titles (the creation order of the
`dir_sheets` dictionary keys). -/
def firstEncounter (l : List String) : List String :=
  l.foldl (fun acc x => if acc.contains x then acc else acc ++ [x]) []

/-- The cells of the named sheet of a build outcome (empty if absent). -/
def resultSheetCells (b : BuildResult) (name : String) : List (Nat × Nat × Val) :=
  match b with
  | .noFiles _ => []
  | .saved wb _ =>
      match wb.find? (fun s => s.name == name) with
      | some s => s.cells
      | none => []

/-! ## Walk lemmas -/

/-- The invariant each yielded `(path, file)` pair satisfies: the file passed
the keep test, and the path extends the prefix by a non-empty suffix whose
non-final segments are all unexcluded directory names. -/
def WalkInv (mg : MimeGuess) (pre : List String) (q : List String × FileRec) : Prop :=
  keepFile mg q.2 = true ∧
  ∃ suf, q.1 = pre ++ suf ∧ suf ≠ [] ∧
    ∀ s ∈ suf.dropLast, EXCLUDED_DIRS.contains s = false

mutual

theorem walkDir_mem_inv (mg : MimeGuess) (pre : List String) (d : Dir) :
    ∀ q ∈ walkDir mg pre d, WalkInv mg pre q := by
  match d with
  | .mk subs fs =>
    intro q hq
    rw [walkDir] at hq
    rcases List.mem_append.mp hq with hl | hr
    · rcases List.mem_filterMap.mp hl with ⟨f, _, hsome⟩
      by_cases hk : keepFile mg f = true
      · rw [if_pos hk] at hsome
        cases hsome
        refine ⟨hk, [f.name], rfl, by simp, ?_⟩
        simp
      · rw [if_neg hk] at hsome
        cases hsome
    · exact walkSubs_mem_inv mg pre subs q hr

theorem walkSubs_mem_inv (mg : MimeGuess) (pre : List String) (l : List (String × Dir)) :
    ∀ q ∈ walkSubs mg pre l, WalkInv mg pre q := by
  match l with
  | [] =>
    intro q hq
    rw [walkSubs] at hq
    cases hq
  | (n, d) :: rest =>
    intro q hq
    rw [walkSubs] at hq
    rcases List.mem_append.mp hq with hl | hr
    · by_cases hex : EXCLUDED_DIRS.contains n = true
      · rw [if_pos hex] at hl
        cases hl
      · rw [if_neg hex] at hl
        obtain ⟨hkeep, suf', h1, h2, h3⟩ := walkDir_mem_inv mg (pre ++ [n]) d q hl
        refine ⟨hkeep, n :: suf', by rw [h1, List.append_assoc]; rfl, by simp, ?_⟩
        intro s hs
        match suf', h2, h3, hs with
        | b :: l', _, h3, hs =>
          rcases List.mem_cons.mp hs with hsn | hs'
          · subst hsn
            exact Bool.not_eq_true _ ▸ hex
          · exact h3 s hs'
    · exact walkSubs_mem_inv mg pre rest q hr

end

/-! ## Concrete inputs used by witnesses and counterexamples -/

/-- A MIME table that never guesses (every decision falls to the NUL sniff). -/
def mgN : MimeGuess := fun _ => none

/-- A plain readable text file. -/
def mkFile (name content : String) : FileRec :=
  { name := name, bytes := [], readable := true, content := content,
    readOk := true, errMsg := "", size := 1, mtime := "2024-01-01 00:00" }

def fileXpy : FileRec := mkFile "x.py" "a\nb"

/-- One selected file inside top-level directory `g`. -/
def treeW1 : Dir := .mk [("g", .mk [] [fileXpy])] []

def nulFile : FileRec := { mkFile "z.py" "x" with bytes := [65, 0, 66] }

def okFile : FileRec := mkFile "ok.py" "y"

/-- A NUL-bearing file next to a clean one. -/
def treeC3 : Dir := .mk [] [nulFile, okFile]

/-- The empty root directory. -/
def emptyTree : Dir := .mk [] []

/-! ## C1 -/

/-- C1: for every root directory tree, `iter_files` never yields a relative
path with an excluded directory name as any non-final segment — exclusion is
applied to the subdirectory list before descending, so no path under an
excluded directory appears at any nesting depth. -/
theorem iter_files_never_yields_excluded (mg : MimeGuess) (root : Dir)
    (q : List String) (hq : q ∈ iter_files mg root) :
    ∀ s ∈ q.dropLast, EXCLUDED_DIRS.contains s = false := by
  rcases List.mem_map.mp hq with ⟨pf, hpf, hfst⟩
  obtain ⟨_, suf, h1, _, h3⟩ := walkDir_mem_inv mg [] root pf hpf
  subst hfst
  rw [h1]
  simpa using h3

/-- Witness for C1 at a concrete tree: `g/x.py` is yielded and its non-final
segment `g` is not an excluded name. -/
theorem iter_files_never_yields_excluded_witness :
    (["g", "x.py"] ∈ iter_files mgN treeW1) ∧
      EXCLUDED_DIRS.contains "g" = false := by
  have hmem : ["g", "x.py"] ∈ iter_files mgN treeW1 := by decide
  exact ⟨hmem,
    iter_files_never_yields_excluded mgN treeW1 ["g", "x.py"] hmem "g" (by decide)⟩

/-! ## C3 -/

/-- C3: a file whose first 512 bytes contain a NUL byte is always excluded
by the Selector (even when its extension is in the inclusion set):
equivalently, every `(path, file)` pair the walk yields has no NUL byte in
its first 512 bytes. -/
theorem selector_excludes_nul_files (mg : MimeGuess) (root : Dir)
    (p : List String) (f : FileRec) (h : (p, f) ∈ walkDir mg [] root) :
    ((f.bytes.take 512).contains 0) = false := by
  obtain ⟨hkeep, _⟩ := walkDir_mem_inv mg [] root (p, f) h
  simp only [keepFile, Bool.and_eq_true, Bool.not_eq_true'] at hkeep
  obtain ⟨-, hbin⟩ := hkeep
  have hsniff : nulSniff f = false := by
    rcases hmg : mg f.name with _ | m
    · rw [is_binary, hmg] at hbin
      exact hbin
    · rw [is_binary, hmg] at hbin
      have hbin' : (if m ≠ "" ∧ ¬ m.startsWith "text/" then true else nulSniff f) = false := hbin
      by_cases hcond : m ≠ "" ∧ ¬ m.startsWith "text/"
      · rw [if_pos hcond] at hbin'; cases hbin'
      · rw [if_neg hcond] at hbin'; exact hbin'
  unfold nulSniff at hsniff
  by_cases hr : f.readable = true
  · rw [if_pos hr] at hsniff; exact hsniff
  · rw [if_neg hr] at hsniff; cases hsniff

/-- Witness for C3 at a concrete tree: next to a NUL-bearing `z.py`, the
walk yields only `ok.py`, whose sniffed bytes have no NUL. -/
theorem selector_excludes_nul_files_witness :
    ((["ok.py"], okFile) ∈ walkDir mgN [] treeC3) ∧
      ((okFile.bytes.take 512).contains 0) = false := by
  have hmem : (["ok.py"], okFile) ∈ walkDir mgN [] treeC3 := by decide
  exact ⟨hmem, selector_excludes_nul_files mgN treeC3 ["ok.py"] okFile hmem⟩

/-! ## C4 -/

/-- C4: the Selector's extension-membership test depends only on the
case-folded extension: two file names whose lowercased suffixes agree get
the same membership decision. -/
theorem ext_membership_case_insensitive (n1 n2 : String)
    (h : pyLower (pySuffix n1) = pyLower (pySuffix n2)) :
    extIncluded n1 = extIncluded n2 := by
  unfold extIncluded
  rw [h]

/-- Witness for C4 at the spec's example pair: `FILE.PY` and `file.py` have
the same case-folded extension, hence the same (positive) decision. -/
theorem ext_membership_case_insensitive_witness :
    pyLower (pySuffix "FILE.PY") = pyLower (pySuffix "file.py") ∧
      extIncluded "FILE.PY" = extIncluded "file.py" ∧
      extIncluded "file.py" = true := by
  have h : pyLower (pySuffix "FILE.PY") = pyLower (pySuffix "file.py") := by decide
  exact ⟨h, ext_membership_case_insensitive "FILE.PY" "file.py" h, by decide⟩

/-! ## C5 -/

/-- C5: an empty selection short-circuits — `build_excel` returns the
"no matching files" notice, saves no workbook and creates no page. -/
theorem build_excel_empty_selection (mg : MimeGuess) (fmtPy : String → String)
    (now : String) (root : Dir) (out_file : String)
    (h : walkDir mg [] root = []) :
    build_excel mg fmtPy now root out_file = .noFiles "❌ No matching files found." := by
  unfold build_excel
  rw [h]

/-- Witness for C5 at the empty root. -/
theorem build_excel_empty_selection_witness :
    build_excel mgN id "2024-01-01 00:00" emptyTree "out.xlsx"
      = .noFiles "❌ No matching files found." :=
  build_excel_empty_selection mgN id "2024-01-01 00:00" emptyTree "out.xlsx" rfl

/-! ## Builder fold lemmas -/

/-- The cells of the content sheet keyed `t` in a build state. -/
def sheetCells (st : BuildState) (t : String) : List (Nat × Nat × Val) :=
  match st.sheets.find? (fun s => s.title == t) with
  | some s => s.cells
  | none => []

/-- The loop state after all files are processed. -/
def finalState (mg : MimeGuess) (fmtPy : String → String) (root : Dir) : BuildState :=
  (walkDir mg [] root).foldl (processFile fmtPy) initState

theorem find?_title_cons (s : DirSheetRec) (rest : List DirSheetRec) (t : String) :
    (s :: rest).find? (fun x => x.title == t)
      = if s.title == t then some s else rest.find? (fun x => x.title == t) := by
  by_cases h : (s.title == t) = true
  · rw [if_pos h]
    exact @List.find?_cons_of_pos _ (fun x => x.title == t) s rest h
  · rw [if_neg h]
    exact @List.find?_cons_of_neg _ (fun x => x.title == t) s rest h

theorem appendToSheet_find?_ne (ss : List DirSheetRec) (t t' : String)
    (cs : List (Nat × Nat × Val)) (h : t' ≠ t) :
    (appendToSheet ss t cs).find? (fun s => s.title == t')
      = ss.find? (fun s => s.title == t') := by
  induction ss with
  | nil => rfl
  | cons s rest ih =>
    rw [appendToSheet]
    by_cases hst : (s.title == t) = true
    · rw [if_pos hst]
      have hteq : s.title = t := by simpa using hst
      have hne : (s.title == t') = false :=
        beq_eq_false_iff_ne.mpr (by rw [hteq]; exact fun hc => h hc.symm)
      rw [find?_title_cons, find?_title_cons]
      dsimp only
      rw [hne]
      simp only [Bool.false_eq_true, if_false]
    · rw [if_neg hst]
      rw [find?_title_cons, find?_title_cons, ih]

theorem appendToSheet_find?_eq (ss : List DirSheetRec) (t : String)
    (cs : List (Nat × Nat × Val)) (s : DirSheetRec)
    (h : ss.find? (fun x => x.title == t) = some s) :
    (appendToSheet ss t cs).find? (fun x => x.title == t)
      = some { s with cells := s.cells ++ cs } := by
  induction ss with
  | nil => cases h
  | cons s0 rest ih =>
    rw [find?_title_cons] at h
    rw [appendToSheet]
    by_cases hst : (s0.title == t) = true
    · rw [if_pos hst] at h
      cases h
      rw [if_pos hst, find?_title_cons]
      dsimp only
      rw [if_pos hst]
    · rw [if_neg hst] at h
      rw [if_neg hst, find?_title_cons]
      rw [if_neg hst]
      exact ih h

theorem appendToSheet_map_title (ss : List DirSheetRec) (t : String)
    (cs : List (Nat × Nat × Val)) :
    (appendToSheet ss t cs).map (fun s => s.title) = ss.map (fun s => s.title) := by
  induction ss with
  | nil => rfl
  | cons s rest ih =>
    rw [appendToSheet]
    by_cases hst : (s.title == t) = true
    · rw [if_pos hst]; rfl
    · rw [if_neg hst]
      simp only [List.map_cons, ih]

/-- Processing a file appends exactly one `fileSection` to the cells of its
top-level sheet. -/
theorem sheetCells_processFile_self (fmtPy : String → String) (st : BuildState)
    (pf : List String × FileRec) :
    ∃ r, sheetCells (processFile fmtPy st pf) (top_level pf.1)
      = sheetCells st (top_level pf.1)
        ++ fileSection r (pathStr pf.1) (pathExt pf.1) (srcOf fmtPy pf.1 pf.2) := by
  cases hf : st.sheets.find? (fun s => s.title == top_level pf.1) with
  | none =>
      refine ⟨1, ?_⟩
      simp only [processFile, sheetCells, hf]
      rw [List.find?_append, hf, Option.none_or, find?_title_cons]
      dsimp only
      rw [beq_self_eq_true]
      simp
  | some s =>
      refine ⟨maxRowOf s.cells + 2, ?_⟩
      simp only [processFile, sheetCells, hf]
      rw [appendToSheet_find?_eq st.sheets _ _ s hf]

/-- Processing a file only ever extends a sheet's cells. -/
theorem sheetCells_processFile_mono (fmtPy : String → String) (st : BuildState)
    (pf : List String × FileRec) (t' : String) :
    sheetCells st t' <+: sheetCells (processFile fmtPy st pf) t' := by
  by_cases ht : t' = top_level pf.1
  · subst ht
    obtain ⟨r, h⟩ := sheetCells_processFile_self fmtPy st pf
    rw [h]
    exact List.prefix_append _ _
  · cases hf : st.sheets.find? (fun s => s.title == top_level pf.1) with
    | none =>
        simp only [processFile, sheetCells, hf]
        rw [List.find?_append]
        cases hf' : st.sheets.find? (fun s => s.title == t') with
        | some s' =>
            exact List.prefix_refl _
        | none =>
            rw [Option.none_or, find?_title_cons]
            dsimp only
            rw [beq_eq_false_iff_ne.mpr (fun hc => ht hc.symm)]
            simp
    | some s =>
        simp only [processFile, sheetCells, hf]
        rw [appendToSheet_find?_ne _ _ _ _ ht]

theorem sheetCells_foldl_mono (fmtPy : String → String)
    (fs : List (List String × FileRec)) :
    ∀ (st : BuildState) (t' : String),
      sheetCells st t' <+: sheetCells (fs.foldl (processFile fmtPy) st) t' := by
  induction fs with
  | nil => intro st t'; exact List.prefix_refl _
  | cons pf rest ih =>
      intro st t'
      rw [List.foldl_cons]
      exact (sheetCells_processFile_mono fmtPy st pf t').trans (ih _ t')

/-- Every processed file's section appears contiguously in the cells of its
top-level sheet. -/
theorem section_in_foldl (fmtPy : String → String)
    (fs : List (List String × FileRec)) :
    ∀ (st : BuildState) (p : List String) (f : FileRec), (p, f) ∈ fs →
      ∃ r, fileSection r (pathStr p) (pathExt p) (srcOf fmtPy p f)
        <:+: sheetCells (fs.foldl (processFile fmtPy) st) (top_level p) := by
  induction fs with
  | nil => intro st p f h; cases h
  | cons pf rest ih =>
      intro st p f h
      rw [List.foldl_cons]
      rcases List.mem_cons.mp h with heq | hmem
      · obtain ⟨p', f'⟩ := pf
        obtain ⟨hp, hf⟩ := Prod.mk.injEq .. ▸ heq
        subst hp
        subst hf
        obtain ⟨r, hr⟩ := sheetCells_processFile_self fmtPy st (p, f)
        refine ⟨r, ?_⟩
        have hsec : fileSection r (pathStr p) (pathExt p) (srcOf fmtPy p f)
            <:+: sheetCells (processFile fmtPy st (p, f)) (top_level p) := by
          rw [hr]
          exact (List.suffix_append _ _).isInfix
        exact hsec.trans (sheetCells_foldl_mono fmtPy rest _ (top_level p)).isInfix
      · exact ih _ p f hmem

theorem build_excel_saved (mg : MimeGuess) (fmtPy : String → String) (now : String)
    (root : Dir) (out : String) (h : walkDir mg [] root ≠ []) :
    build_excel mg fmtPy now root out =
      .saved (summarySheet (finalState mg fmtPy root).rows
          :: (finalState mg fmtPy root).sheets.map (fun d => Sheet.mk (sheet_safe d.title) d.cells)
          ++ [statsSheet (walkDir mg [] root).length (finalState mg fmtPy root).total_loc
                (finalState mg fmtPy root).by_lang now,
              readmeSheet root])
        ("✅ Export complete → " ++ out) := by
  cases hf : walkDir mg [] root with
  | nil => exact absurd hf h
  | cons a l =>
      unfold build_excel finalState
      rw [hf]

/-- The section-existence helper behind the content-page claims: every
selected file has its section, built from its processed content, appearing
contiguously in the cells of its top-level group's sheet in the saved
workbook. -/
theorem build_section_exists (mg : MimeGuess) (fmtPy : String → String) (now : String)
    (root : Dir) (out : String) (p : List String) (f : FileRec)
    (h : (p, f) ∈ walkDir mg [] root) :
    ∃ wb msg cs r, build_excel mg fmtPy now root out = .saved wb msg ∧
      Sheet.mk (sheet_safe (top_level p)) cs ∈ wb ∧
      fileSection r (pathStr p) (pathExt p) (srcOf fmtPy p f) <:+: cs := by
  have hne : walkDir mg [] root ≠ [] := by
    intro hnil
    rw [hnil] at h
    cases h
  obtain ⟨r, hinf⟩ := section_in_foldl fmtPy (walkDir mg [] root) initState p f h
  have hfold : (walkDir mg [] root).foldl (processFile fmtPy) initState
      = finalState mg fmtPy root := rfl
  rw [hfold] at hinf
  cases hd : (finalState mg fmtPy root).sheets.find? (fun s => s.title == top_level p) with
  | none =>
      exfalso
      have hnilc : sheetCells (finalState mg fmtPy root) (top_level p) = [] := by
        unfold sheetCells
        rw [hd]
      rw [hnilc] at hinf
      have : fileSection r (pathStr p) (pathExt p) (srcOf fmtPy p f) = [] :=
        List.infix_nil.mp hinf
      simp [fileSection] at this
  | some d =>
      have hcells : sheetCells (finalState mg fmtPy root) (top_level p) = d.cells := by
        unfold sheetCells
        rw [hd]
      have hdt : d.title = top_level p := by
        have := List.find?_some hd
        simpa using this
      have hdmem : d ∈ (finalState mg fmtPy root).sheets := List.mem_of_find?_eq_some hd
      refine ⟨_, _, d.cells, r, build_excel_saved mg fmtPy now root out hne, ?_, ?_⟩
      · rw [← hdt]
        exact List.mem_cons_of_mem _
          (List.mem_append_left _
            (List.mem_map_of_mem (fun d => Sheet.mk (sheet_safe d.title) d.cells) hdmem))
      · rw [hcells] at hinf
        exact hinf

theorem total_loc_foldl (fmtPy : String → String) (fs : List (List String × FileRec)) :
    ∀ st : BuildState, (fs.foldl (processFile fmtPy) st).total_loc
      = st.total_loc + (fs.map (fun pf => fileLoc fmtPy pf.1 pf.2)).sum := by
  induction fs with
  | nil => intro st; simp
  | cons pf rest ih =>
      intro st
      rw [List.foldl_cons, ih, List.map_cons, List.sum_cons]
      simp only [processFile]
      omega

/-- The Stats sheet of every saved workbook reports in cell B3 the sum of
the per-file recorded line counts. -/
theorem build_stats_total (mg : MimeGuess) (fmtPy : String → String) (now : String)
    (root : Dir) (out : String) (h : walkDir mg [] root ≠ []) :
    ∃ wb msg, build_excel mg fmtPy now root out = .saved wb msg ∧
      ∃ cs, Sheet.mk "Stats" cs ∈ wb ∧
        (3, 2, Val.n (((walkDir mg [] root).map (fun pf => fileLoc fmtPy pf.1 pf.2)).sum)) ∈ cs := by
  refine ⟨_, _, build_excel_saved mg fmtPy now root out h,
    (statsSheet (walkDir mg [] root).length (finalState mg fmtPy root).total_loc
      (finalState mg fmtPy root).by_lang now).cells, ?_, ?_⟩
  · exact List.mem_cons_of_mem _ (List.mem_append_right _ (List.mem_cons_self _ _))
  · have htot : (finalState mg fmtPy root).total_loc
        = ((walkDir mg [] root).map (fun pf => fileLoc fmtPy pf.1 pf.2)).sum := by
      unfold finalState
      rw [total_loc_foldl]
      simp [initState]
    rw [← htot]
    simp only [statsSheet]
    exact List.mem_append_left _ (by simp)

/-! ## C7 -/

/-- C7: for every non-empty selection, the total line count in cell B3 of
the Stats page equals the sum over all selected files of that file's
recorded line count `src.count("\n") + 1` (computed on the content string
the builder processes for the file). -/
theorem stats_total_lines (mg : MimeGuess) (fmtPy : String → String) (now : String)
    (root : Dir) (out : String) (h : walkDir mg [] root ≠ []) :
    ∃ wb msg, build_excel mg fmtPy now root out = .saved wb msg ∧
      ∃ cs, Sheet.mk "Stats" cs ∈ wb ∧
        (3, 2, Val.n (((walkDir mg [] root).map
          (fun pf => countNl (srcOf fmtPy pf.1 pf.2) + 1)).sum)) ∈ cs :=
  build_stats_total mg fmtPy now root out h

/-- Witness for C7 at a two-file tree. -/
theorem stats_total_lines_witness :
    (walkDir mgN [] treeC3 ≠ []) ∧
      (∃ wb msg, build_excel mgN id "2024-01-01 00:00" treeC3 "out.xlsx" = .saved wb msg ∧
        ∃ cs, Sheet.mk "Stats" cs ∈ wb ∧
          (3, 2, Val.n (((walkDir mgN [] treeC3).map
            (fun pf => countNl (srcOf id pf.1 pf.2) + 1)).sum)) ∈ cs) := by
  have hne : walkDir mgN [] treeC3 ≠ [] := by decide
  exact ⟨hne, stats_total_lines mgN id "2024-01-01 00:00" treeC3 "out.xlsx" hne⟩

/-! ## C10 -/

/-- C10: a selected file whose processed content is the empty string gets a
recorded line count of exactly 1 (`"".count("\n") + 1`), and therefore
contributes 1 to the Stats page's total in cell B3. -/
theorem empty_content_counts_one (mg : MimeGuess) (fmtPy : String → String) (now : String)
    (root : Dir) (out : String) (p : List String) (f : FileRec)
    (hmem : (p, f) ∈ walkDir mg [] root) (hsrc : srcOf fmtPy p f = "") :
    fileLoc fmtPy p f = 1 ∧
    ∃ wb msg, build_excel mg fmtPy now root out = .saved wb msg ∧
      ∃ cs, Sheet.mk "Stats" cs ∈ wb ∧
        (3, 2, Val.n (((walkDir mg [] root).map (fun pf => fileLoc fmtPy pf.1 pf.2)).sum)) ∈ cs := by
  have hne : walkDir mg [] root ≠ [] := by
    intro hnil
    rw [hnil] at hmem
    cases hmem
  refine ⟨?_, build_stats_total mg fmtPy now root out hne⟩
  unfold fileLoc
  rw [hsrc]
  rfl

def emptyContentFile : FileRec := mkFile "empty.txt" ""

def treeC10 : Dir := .mk [] [emptyContentFile]

/-- Witness for C10 at a tree holding one empty `.txt` file. -/
theorem empty_content_counts_one_witness :
    ((["empty.txt"], emptyContentFile) ∈ walkDir mgN [] treeC10) ∧
      srcOf id ["empty.txt"] emptyContentFile = "" ∧
      fileLoc id ["empty.txt"] emptyContentFile = 1 ∧
      (∃ wb msg, build_excel mgN id "2024-01-01 00:00" treeC10 "out.xlsx" = .saved wb msg ∧
        ∃ cs, Sheet.mk "Stats" cs ∈ wb ∧
          (3, 2, Val.n (((walkDir mgN [] treeC10).map
            (fun pf => fileLoc id pf.1 pf.2)).sum)) ∈ cs) := by
  have hmem : (["empty.txt"], emptyContentFile) ∈ walkDir mgN [] treeC10 := by decide
  have hsrc : srcOf id ["empty.txt"] emptyContentFile = "" := rfl
  obtain ⟨h1, h2⟩ := empty_content_counts_one mgN id "2024-01-01 00:00" treeC10 "out.xlsx"
    ["empty.txt"] emptyContentFile hmem hsrc
  exact ⟨hmem, hsrc, h1, h2⟩

/-! ## C8 -/

/-- C8 (amended): every selected file's section on its group's content page
consists contiguously of the header row with the relative path, the opening
fence naming the extension, one row per line of
`textwrap.dedent(src.strip("\n")).splitlines()` carrying a 1-based index
and the line's text, and the closing fence — i.e. the lines are the file's
lines with leading/trailing newline characters trimmed, whitespace-only
lines normalised to empty, and the longest common leading whitespace
removed (`fileSection`/`trimmedLines`). -/
theorem content_section_structure (mg : MimeGuess) (fmtPy : String → String)
    (now : String) (root : Dir) (out : String) (p : List String) (f : FileRec)
    (h : (p, f) ∈ walkDir mg [] root) :
    ∃ wb msg cs r, build_excel mg fmtPy now root out = .saved wb msg ∧
      Sheet.mk (sheet_safe (top_level p)) cs ∈ wb ∧
      fileSection r (pathStr p) (pathExt p) (srcOf fmtPy p f) <:+: cs :=
  build_section_exists mg fmtPy now root out p f h

/-- Witness for C8's amended theorem at a concrete tree. -/
theorem content_section_structure_witness :
    ((["g", "x.py"], fileXpy) ∈ walkDir mgN [] treeW1) ∧
      (∃ wb msg cs r,
        build_excel mgN id "2024-01-01 00:00" treeW1 "out.xlsx" = .saved wb msg ∧
        Sheet.mk (sheet_safe (top_level ["g", "x.py"])) cs ∈ wb ∧
        fileSection r (pathStr ["g", "x.py"]) (pathExt ["g", "x.py"])
          (srcOf id ["g", "x.py"] fileXpy) <:+: cs) := by
  have hmem : (["g", "x.py"], fileXpy) ∈ walkDir mgN [] treeW1 := by decide
  exact ⟨hmem, content_section_structure mgN id "2024-01-01 00:00" treeW1 "out.xlsx"
    ["g", "x.py"] fileXpy hmem⟩

/-- A file whose only source line is indented. -/
def indentedFile : FileRec := mkFile "a.py" "  x"

def treeC8 : Dir := .mk [] [indentedFile]

/-- Counterexample to C8 as stated: the file `a.py` has the single source
line `"  x"` (and no leading/trailing blank lines), so the claim requires
the numbered row at row 3, column 2 of the `_root` page to carry `"  x"`;
the build instead stores the dedented text `"x"`. -/
theorem content_section_cex :
    (resultSheetCells (build_excel mgN id "2024-01-01 00:00" treeC8 "o") "_root").find?
        (fun c => c.1 == 3 && c.2.1 == 2) = some (3, 2, Val.s "x")
      ∧ Val.s "x" ≠ Val.s "  x" := by
  constructor
  · rfl
  · decide

/-! ## C6 -/

/-- C6: a selected file whose build-time read fails gets the visible
placeholder `<<Error reading file: ...>>` (embedding the error message) as
its section content, the build still completes with a saved workbook, and
every selected file's section appears on its group's page. -/
theorem build_unreadable_placeholder (mg : MimeGuess) (fmtPy : String → String)
    (now : String) (root : Dir) (out : String) (p : List String) (f : FileRec)
    (hmem : (p, f) ∈ walkDir mg [] root) (hbad : f.readOk = false) :
    ∃ wb msg, build_excel mg fmtPy now root out = .saved wb msg ∧
      (∃ cs r, Sheet.mk (sheet_safe (top_level p)) cs ∈ wb ∧
        fileSection r (pathStr p) (pathExt p)
          ("<<Error reading file: " ++ f.errMsg ++ ">>") <:+: cs) ∧
      (∀ q g, (q, g) ∈ walkDir mg [] root →
        ∃ cs r, Sheet.mk (sheet_safe (top_level q)) cs ∈ wb ∧
          fileSection r (pathStr q) (pathExt q) (srcOf fmtPy q g) <:+: cs) := by
  obtain ⟨wb, msg, cs, r, heq, hin, hinf⟩ :=
    build_section_exists mg fmtPy now root out p f hmem
  have hplace : srcOf fmtPy p f = "<<Error reading file: " ++ f.errMsg ++ ">>" := by
    unfold srcOf
    rw [hbad]
    simp
  rw [hplace] at hinf
  refine ⟨wb, msg, heq, ⟨cs, r, hin, hinf⟩, ?_⟩
  intro q g hqg
  obtain ⟨wb', msg', cs', r', heq', hin', hinf'⟩ :=
    build_section_exists mg fmtPy now root out q g hqg
  rw [heq] at heq'
  injection heq' with h1 h2
  subst h1
  exact ⟨cs', r', hin', hinf'⟩

/-- A selected file whose build-time read fails. -/
def badFile : FileRec :=
  { name := "bad.md", bytes := [], readable := true, content := "", readOk := false,
    errMsg := "Permission denied", size := 1, mtime := "2024-01-01 00:00" }

def goodFile : FileRec := mkFile "good.md" "ok"

def treeC6 : Dir := .mk [] [badFile, goodFile]

/-- Witness for C6 at a tree holding one unreadable and one readable file. -/
theorem build_unreadable_placeholder_witness :
    ((["bad.md"], badFile) ∈ walkDir mgN [] treeC6) ∧ badFile.readOk = false ∧
      (∃ wb msg, build_excel mgN id "2024-01-01 00:00" treeC6 "out.xlsx" = .saved wb msg ∧
        (∃ cs r, Sheet.mk (sheet_safe (top_level ["bad.md"])) cs ∈ wb ∧
          fileSection r (pathStr ["bad.md"]) (pathExt ["bad.md"])
            ("<<Error reading file: " ++ badFile.errMsg ++ ">>") <:+: cs) ∧
        (∀ q g, (q, g) ∈ walkDir mgN [] treeC6 →
          ∃ cs r, Sheet.mk (sheet_safe (top_level q)) cs ∈ wb ∧
            fileSection r (pathStr q) (pathExt q) (srcOf id q g) <:+: cs)) := by
  have hmem : (["bad.md"], badFile) ∈ walkDir mgN [] treeC6 := by decide
  exact ⟨hmem, rfl, build_unreadable_placeholder mgN id "2024-01-01 00:00" treeC6 "out.xlsx"
    ["bad.md"] badFile hmem rfl⟩

/-! ## C2 -/

theorem find?_title_none_contains (ss : List DirSheetRec) (t : String)
    (h : ss.find? (fun s => s.title == t) = none) :
    (ss.map (fun d => d.title)).contains t = false := by
  rw [List.find?_eq_none] at h
  have hnm : t ∉ ss.map (fun d => d.title) := by
    intro hmem
    rcases List.mem_map.mp hmem with ⟨d, hd, hdt⟩
    exact h d hd (by simp [hdt])
  simpa using hnm

theorem find?_title_some_contains (ss : List DirSheetRec) (t : String) (d : DirSheetRec)
    (h : ss.find? (fun s => s.title == t) = some d) :
    (ss.map (fun d => d.title)).contains t = true := by
  have hmem := List.mem_of_find?_eq_some h
  have hdt : d.title = t := by
    have := List.find?_some h
    simpa using this
  have hm : t ∈ ss.map (fun d => d.title) := by
    rw [← hdt]
    exact List.mem_map_of_mem _ hmem
  simpa using hm

/-- The titles of the content sheets after the loop are the top-level
groups in first-encountered order, starting from the initial titles. -/
theorem sheets_titles_foldl (fmtPy : String → String) (fs : List (List String × FileRec)) :
    ∀ st : BuildState, ((fs.foldl (processFile fmtPy) st).sheets.map (fun d => d.title))
      = fs.foldl
          (fun acc pf => if acc.contains (top_level pf.1) then acc else acc ++ [top_level pf.1])
          (st.sheets.map (fun d => d.title)) := by
  induction fs with
  | nil => intro st; rfl
  | cons pf rest ih =>
      intro st
      rw [List.foldl_cons, List.foldl_cons, ih]
      congr 1
      cases hf : st.sheets.find? (fun s => s.title == top_level pf.1) with
      | none =>
          have hc := find?_title_none_contains st.sheets (top_level pf.1) hf
          simp only [processFile, hf]
          rw [List.map_append, hc]
          simp
      | some s =>
          have hc := find?_title_some_contains st.sheets (top_level pf.1) s hf
          simp only [processFile, hf]
          rw [appendToSheet_map_title, hc]
          simp

/-- C2 (amended): the saved workbook's page order is Summary first, then one
content page per top-level group in first-encountered order, then Stats,
then README — the Stats and README pages come after the content pages, not
before them, because the code creates them after the loop. -/
theorem sheet_order (mg : MimeGuess) (fmtPy : String → String) (now : String)
    (root : Dir) (out : String) (h : walkDir mg [] root ≠ []) :
    sheetNames (build_excel mg fmtPy now root out)
      = "Summary"
        :: (firstEncounter ((walkDir mg [] root).map (fun pf => top_level pf.1))).map sheet_safe
        ++ ["Stats", "README"] := by
  have hmid : (finalState mg fmtPy root).sheets.map (fun d => d.title)
      = firstEncounter ((walkDir mg [] root).map (fun pf => top_level pf.1)) := by
    unfold finalState firstEncounter
    rw [sheets_titles_foldl, List.foldl_map]
    rfl
  rw [build_excel_saved mg fmtPy now root out h]
  simp only [sheetNames, List.map_cons, List.map_append, List.map_map]
  rw [← hmid, List.map_map]
  rfl

/-- Counterexample to C2 as stated: with one selected file under top-level
directory `g`, the workbook's page order is Summary, `g`, Stats, README —
not Summary, Stats, README, `g` as the claim requires. -/
theorem sheet_order_cex :
    sheetNames (build_excel mgN id "2024-01-01 00:00" treeW1 "out.xlsx")
        = ["Summary", "g", "Stats", "README"]
      ∧ ["Summary", "g", "Stats", "README"] ≠ ["Summary", "Stats", "README", "g"] :=
  ⟨rfl, by decide⟩

/-- Witness for C2's amended theorem at a concrete tree. -/
theorem sheet_order_witness :
    (walkDir mgN [] treeW1 ≠ []) ∧
      sheetNames (build_excel mgN id "2024-01-01 00:00" treeW1 "out.xlsx")
        = "Summary"
          :: (firstEncounter ((walkDir mgN [] treeW1).map (fun pf => top_level pf.1))).map sheet_safe
          ++ ["Stats", "README"] := by
  have hne : walkDir mgN [] treeW1 ≠ [] := by decide
  exact ⟨hne, sheet_order mgN id "2024-01-01 00:00" treeW1 "out.xlsx" hne⟩

/-! ## C9 -/

theorem manifestStep_mono (root : Dir) (cells : List (Nat × Nat × Val)) (n : String) :
    cells <+: manifestStep root cells n := by
  unfold manifestStep
  cases findManifest root n with
  | none => exact List.prefix_refl _
  | some f => exact List.prefix_append _ _

theorem manifestFold_mono (root : Dir) (names : List String) :
    ∀ cells, cells <+: names.foldl (manifestStep root) cells := by
  induction names with
  | nil => intro cells; exact List.prefix_refl _
  | cons n rest ih =>
      intro cells
      rw [List.foldl_cons]
      exact (manifestStep_mono root cells n).trans (ih _)

theorem manifestBlock_in_fold (root : Dir) (names : List String) :
    ∀ cells name fc, name ∈ names → findManifest root name = some fc →
      ∃ r, manifestBlock r name fc.content <:+: names.foldl (manifestStep root) cells := by
  induction names with
  | nil => intro cells name fc h _; cases h
  | cons n rest ih =>
      intro cells name fc hmem hfc
      rw [List.foldl_cons]
      rcases List.mem_cons.mp hmem with heq | hmem'
      · subst heq
        refine ⟨maxRowOf cells + 2, ?_⟩
        have hstep : manifestStep root cells name
            = cells ++ manifestBlock (maxRowOf cells + 2) name fc.content := by
          unfold manifestStep
          rw [hfc]
        have h1 : manifestBlock (maxRowOf cells + 2) name fc.content
            <:+: manifestStep root cells name := by
          rw [hstep]
          exact (List.suffix_append _ _).isInfix
        exact h1.trans (manifestFold_mono root rest _).isInfix
      · exact ih _ name fc hmem' hfc

/-- C9 (amended): for each of the fixed dependency-manifest filenames that
exists at the root, the README page contains the `📃 name:` header followed
by one row per manifest line, each line written with its trailing
whitespace stripped (`line.rstrip()`); an absent manifest contributes
nothing and causes no error. -/
theorem readme_manifest_blocks (mg : MimeGuess) (fmtPy : String → String) (now : String)
    (root : Dir) (out : String) (name : String) (fc : FileRec)
    (h : walkDir mg [] root ≠ []) (hname : name ∈ manifestNames)
    (hfc : findManifest root name = some fc) :
    ∃ wb msg cs r, build_excel mg fmtPy now root out = .saved wb msg ∧
      Sheet.mk "README" cs ∈ wb ∧ manifestBlock r name fc.content <:+: cs := by
  obtain ⟨r, hinf⟩ := manifestBlock_in_fold root manifestNames readmeBase name fc hname hfc
  refine ⟨_, _, (readmeSheet root).cells, r,
    build_excel_saved mg fmtPy now root out h, ?_, ?_⟩
  · exact List.mem_cons_of_mem _
      (List.mem_append_right _ (List.mem_cons_of_mem _ (List.mem_cons_self _ _)))
  · exact hinf

def reqFile : FileRec := mkFile "requirements.txt" "pkg \n"

/-- A root whose only file is a requirements.txt with a trailing space on
its single line. -/
def treeC9 : Dir := .mk [] [reqFile]

/-- Counterexample to C9 as stated: requirements.txt's single line is
`"pkg "` (with a trailing space), but no cell of the README page carries
that line verbatim — the block row at row 7 holds the right-stripped
`"pkg"` instead. -/
theorem readme_verbatim_cex :
    pySplitlines reqFile.content = ["pkg "] ∧
      (resultSheetCells (build_excel mgN id "2024-01-01 00:00" treeC9 "o") "README").all
        (fun c => c.2.2 != Val.s "pkg ") = true ∧
      ((resultSheetCells (build_excel mgN id "2024-01-01 00:00" treeC9 "o") "README").find?
        (fun c => c.1 == 7 && c.2.1 == 1)) = some (7, 1, Val.s "pkg") :=
  ⟨rfl, rfl, rfl⟩

/-- Witness for C9's amended theorem at `treeC9`. -/
theorem readme_manifest_blocks_witness :
    (walkDir mgN [] treeC9 ≠ []) ∧ ("requirements.txt" ∈ manifestNames) ∧
      (findManifest treeC9 "requirements.txt" = some reqFile) ∧
      (∃ wb msg cs r,
        build_excel mgN id "2024-01-01 00:00" treeC9 "out.xlsx" = .saved wb msg ∧
        Sheet.mk "README" cs ∈ wb ∧
        manifestBlock r "requirements.txt" reqFile.content <:+: cs) := by
  have h1 : walkDir mgN [] treeC9 ≠ [] := by decide
  have h2 : "requirements.txt" ∈ manifestNames := by decide
  have h3 : findManifest treeC9 "requirements.txt" = some reqFile := rfl
  exact ⟨h1, h2, h3, readme_manifest_blocks mgN id "2024-01-01 00:00" treeC9 "out.xlsx"
    "requirements.txt" reqFile h1 h2 h3⟩

end RepoExporter
